import Mathlib

/-!
Verification of the nested call/create dispatch layer of
`libethereum/ExtVM.cpp`: the call dispatcher (`ExtVM::call`,
`ExtVM::create`), the stack-depth governor (`go`, `goOnOffloadedStack`)
and the stack-budget constants.  Components of the repository that are
only referenced by `ExtVM.cpp` (class `Executive`, the ledger `State`,
`SubState`) are modelled from the specification and marked as such in
their doc comments.
-/

namespace ExtVMSpec

/-- Account addresses (`h160` in the source), abstracted to naturals. -/
abbrev Address := Nat

/-- One ledger account: a balance and a nonce. -/
structure Account where
  balance : Nat
  nonce : Nat
deriving DecidableEq, Repr, Inhabited

/-- Lookup in an association list of accounts; an absent address reads as
the empty account. -/
def lookupAccounts : List (Address × Account) → Address → Account
  | [], _ => ⟨0, 0⟩
  | (b, acc) :: rest, a => if b = a then acc else lookupAccounts rest a

/-- Point update of an association list of accounts. -/
def setAccounts : List (Address × Account) → Address → Account → List (Address × Account)
  | [], a, acc => [(a, acc)]
  | (b, acc0) :: rest, a, acc =>
      if b = a then (b, acc) :: rest else (b, acc0) :: setAccounts rest a acc

/-- The ledger (class `State` of the repository; `ExtVM.cpp` holds it by
reference as `m_s`). -/
structure State where
  accounts : List (Address × Account)
deriving DecidableEq, Repr, Inhabited

/-- Balance of an address. -/
def State.balance (s : State) (a : Address) : Nat :=
  (lookupAccounts s.accounts a).balance

/-- Nonce of an address. -/
def State.nonce (s : State) (a : Address) : Nat :=
  (lookupAccounts s.accounts a).nonce

/-- Modelled from the spec: `State::noteSending` (the ledger's
`incrementNonce(address)`; class `State` is not under `src/`): increments
the sender's nonce by one, leaving the balance untouched. -/
def State.noteSending (s : State) (a : Address) : State :=
  ⟨setAccounts s.accounts a
    ⟨(lookupAccounts s.accounts a).balance, (lookupAccounts s.accounts a).nonce + 1⟩⟩

/-- Modelled from the spec: the balance transfer performed when a frame
begins (`State::transferBalance`, not under `src/`). -/
def State.transfer (s : State) (sender recv : Address) (value : Nat) : State :=
  let sAcc := lookupAccounts s.accounts sender
  let l1 := setAccounts s.accounts sender ⟨sAcc.balance - value, sAcc.nonce⟩
  let rAcc := lookupAccounts l1 recv
  ⟨setAccounts l1 recv ⟨rAcc.balance + value, rAcc.nonce⟩⟩

/-- Accumulated side effects of one frame: logs, pending self-destructs
and the refund counter (`SubState`, declared in `ExtVM.h`, not under
`src/`). -/
structure SubState where
  logs : List Nat
  suicides : List Address
  refunds : Nat
deriving DecidableEq, Repr, Inhabited

/-- The empty `SubState` a fresh frame starts with. -/
def SubState.empty : SubState := ⟨[], [], 0⟩

/-- Modelled from the spec: merging a child frame's `SubState` into its
parent's (`Executive::accrueSubState` / `SubState::operator+=`, not under
`src/`): logs and self-destructs are appended, refunds are added. -/
def SubState.accrue (parent child : SubState) : SubState :=
  ⟨parent.logs ++ child.logs, parent.suicides ++ child.suicides,
   parent.refunds + child.refunds⟩

/-- `c_depthLimit` (ExtVM.cpp line 33). -/
def c_depthLimit : Nat := 1024

/-- `c_singleExecutionStackSize` (ExtVM.cpp lines 36-41), release
(`NDEBUG`) value. -/
def c_singleExecutionStackSize : Nat := 10 * 1024

/-- `c_defaultStackSize` (ExtVM.cpp lines 44-51), Linux value. -/
def c_defaultStackSize : Nat := 8 * 1024 * 1024

/-- `c_entryOverhead` (ExtVM.cpp line 54). -/
def c_entryOverhead : Nat := 128 * 1024

/-- `c_offloadPoint` (ExtVM.cpp line 57). -/
def c_offloadPoint : Nat :=
  (c_defaultStackSize - c_entryOverhead) / c_singleExecutionStackSize

/-- One build/platform configuration of the stack-budget constants. -/
structure StackConfig where
  singleExecutionStackSize : Nat
  defaultStackSize : Nat
  entryOverhead : Nat
deriving DecidableEq, Repr

/-- The offload point the source derives from a configuration
(ExtVM.cpp line 57, parameterised over the `#ifdef` branches). -/
def StackConfig.offloadPoint (c : StackConfig) : Nat :=
  (c.defaultStackSize - c.entryOverhead) / c.singleExecutionStackSize

/-- The six build/platform combinations present in the source
(`NDEBUG`/debug crossed with Linux/Windows/other). -/
def sourceConfigs : List StackConfig :=
  [⟨10 * 1024, 8 * 1024 * 1024, 128 * 1024⟩,
   ⟨16 * 1024, 8 * 1024 * 1024, 128 * 1024⟩,
   ⟨10 * 1024, 16 * 1024 * 1024, 128 * 1024⟩,
   ⟨16 * 1024, 16 * 1024 * 1024, 128 * 1024⟩,
   ⟨10 * 1024, 512 * 1024, 128 * 1024⟩,
   ⟨16 * 1024, 512 * 1024, 128 * 1024⟩]

/-- Classification of faults that can travel as control-flow exceptions. -/
inductive FaultKind where
  | interpreter
  | nativeResource
deriving DecidableEq, Repr

/-- A control-flow exception: its kind plus an opaque payload. -/
structure Fault where
  kind : FaultKind
  payload : Nat
deriving DecidableEq, Repr

/-- Behaviour of the externally supplied interpreter loop for one frame
run (opcode semantics are out of scope of this layer, hence a
parameter): a normal/reverted halt with final gas, accumulated substate
and post-state; an interpreter-level fault; or a native resource fault
raised while running. -/
inductive InterpOutcome where
  | done (gasLeft : Nat) (sub : SubState) (post : State)
  | vmFault (payload : Nat)
  | nativeFault (payload : Nat)
deriving DecidableEq, Repr

/-- Modelled from the spec: class `Executive` (the `ExecutionFrame`), not
under `src/`: ledger view, depth, terminal condition, remaining gas,
accumulated `SubState` and the created address; `origState` is the
savepoint taken at construction, the target of an exceptional revert. -/
structure Executive where
  state : State
  origState : State
  depth : Nat
  excepted : Bool
  gas : Nat
  sub : SubState
  newAddress : Address
deriving DecidableEq, Repr, Inhabited

/-- Modelled from the spec: `Executive`'s constructor — a fresh frame at
the given depth over the given ledger. -/
def Executive.init (s : State) (depth : Nat) : Executive :=
  ⟨s, s, depth, false, 0, SubState.empty, 0⟩

/-- `CallParameters` (declared in `ExtVM.h`); the `onOp` tracing callback
is inert at this layer and carried as an opaque tag. -/
structure CallParameters where
  senderAddress : Address
  codeAddress : Address
  receiveAddress : Address
  value : Nat
  gas : Nat
  data : List Nat
  onOp : Nat
deriving DecidableEq, Repr

/-- Modelled from the spec: `Executive::call` — begins a message call.  A
frame whose depth exceeds the depth limit halts exceptionally with no
executed side effects.  Otherwise the value transfer is performed and the
returned flag tells whether the frame completed immediately (`true`:
pure transfer / precompile) or needs a VM run (`false`). -/
def Executive.callBegin (e : Executive) (p : CallParameters) (_gasPrice _origin : Nat)
    (hasCode : Bool) : Executive × Bool :=
  if c_depthLimit < e.depth then
    ({ e with excepted := true, gas := 0 }, true)
  else
    ({ e with state := e.state.transfer p.senderAddress p.receiveAddress p.value,
              gas := p.gas }, !hasCode)

/-- Modelled from the spec: assignment of the created contract's address
(RLP/serialization out of scope); any deterministic function of sender
and nonce serves the dispatch layer. -/
def newContractAddress (sender nonce : Nat) : Address :=
  1 + sender * 4294967296 + nonce

/-- Modelled from the spec: `Executive::create` — begins a contract
creation.  A frame whose depth exceeds the depth limit halts
exceptionally with no executed side effects.  Otherwise the new address
is assigned, the endowment transferred, and the returned flag tells
whether the frame completed immediately (`true`: empty init code) or
needs a VM run (`false`). -/
def Executive.createBegin (e : Executive) (sender : Address) (endowment : Nat)
    (_gasPrice : Nat) (gas : Nat) (code : List Nat) (_origin : Nat) : Executive × Bool :=
  if c_depthLimit < e.depth then
    ({ e with excepted := true, gas := 0 }, true)
  else
    let newAddr := newContractAddress sender (e.state.nonce sender)
    ({ e with state := e.state.transfer sender newAddr endowment,
              gas := gas, newAddress := newAddr }, code.isEmpty)

/-- Modelled from the spec: `Executive::go` — drives the interpreter
loop.  An interpreter-level fault is absorbed into the exceptional
terminal state: gas is zeroed and the ledger, the `SubState` and the
created address are reverted to the frame's savepoint, and no exception
escapes.  A native resource fault raised during the run escapes as a
control-flow exception. -/
def Executive.go (e : Executive) (_onOp : Nat) (interp : InterpOutcome) :
    Except Fault Executive :=
  match interp with
  | .done gasLeft sub post =>
      .ok { e with gas := gasLeft, sub := sub, state := post, excepted := false }
  | .vmFault _ =>
      .ok { e with gas := 0, excepted := true, sub := SubState.empty,
                   state := e.origState, newAddress := 0 }
  | .nativeFault payload => .error ⟨FaultKind.nativeResource, payload⟩

/-- Result of `goOnOffloadedStack`: the stack-segment size requested for
the new context, whether a context was actually created, and the run's
outcome as seen by the original context after the join. -/
structure OffloadResult where
  stackSize : Nat
  spawned : Bool
  outcome : Except Fault Executive
deriving Repr

/-- `goOnOffloadedStack` (ExtVM.cpp lines 59-80): sets the new stack
size, spawns a context (when the allocation succeeds, modelled by
`allocOk`; a failed allocation raises a native resource fault in the
calling context), runs the frame there under a catch-all that captures
any fault as a value, joins, and re-raises a captured fault in the
calling context. -/
def goOnOffloadedStack (allocOk : Bool) (e : Executive) (onOp : Nat)
    (interp : InterpOutcome) : OffloadResult :=
  let size := (c_depthLimit - c_offloadPoint) * c_singleExecutionStackSize
  if allocOk then
    let body := e.go onOp interp
    let exception : Option Fault :=
      match body with
      | .error f => some f
      | .ok _ => none
    match exception, body with
    | some f, _ => ⟨size, true, .error f⟩
    | none, r => ⟨size, true, r⟩
  else
    ⟨size, false, .error ⟨FaultKind.nativeResource, 0⟩⟩

/-- Result of the governor `go`: the run's outcome, whether a new
execution context was spawned, and the stack size allocated for it
(zero when none was). -/
structure GoResult where
  outcome : Except Fault Executive
  spawned : Bool
  stackSize : Nat
deriving Repr

/-- `go` (ExtVM.cpp lines 82-96): at exactly the offload point the frame
is relocated onto a freshly allocated stack segment; at every other
depth it runs directly in the current context. -/
def go (allocOk : Bool) (depth : Nat) (e : Executive) (onOp : Nat)
    (interp : InterpOutcome) : GoResult :=
  if depth = c_offloadPoint then
    let r := goOnOffloadedStack allocOk e onOp interp
    ⟨r.outcome, r.spawned, r.stackSize⟩
  else
    ⟨e.go onOp interp, false, 0⟩

/-- `ExtVM`: the externalities object of one running frame — the fields
`ExtVM.cpp` uses: the ledger `m_s`, the frame's depth, its own address,
its accumulated `sub`, and the threaded-through gas price and origin. -/
structure ExtVM where
  state : State
  depth : Nat
  myAddress : Address
  sub : SubState
  gasPrice : Nat
  origin : Nat
deriving DecidableEq, Repr, Inhabited

/-- Everything observable when a dispatch returns normally: the updated
caller, the child frame's final state, whether and at which depth the
governor ran it, whether a context was spawned and with what stack size,
the written-back gas, the boolean result and the created address. -/
structure DispatchResult where
  vm : ExtVM
  childFinal : Executive
  ran : Bool
  goDepth : Nat
  spawned : Bool
  stackSize : Nat
  gasOut : Nat
  success : Bool
  newAddress : Address
deriving DecidableEq, Repr, Inhabited

/-- `ExtVM::call` (ExtVM.cpp lines 104-120): construct an `Executive` at
`depth + 1`; begin the call; if a run is needed, place it via `go` at the
caller's depth and then accrue the child's `SubState`; write the child's
remaining gas into `_p.gas`; return `!e.excepted()`. -/
def ExtVM.call (vm : ExtVM) (p : CallParameters) (hasCode allocOk : Bool)
    (interp : InterpOutcome) : Except Fault DispatchResult :=
  let e0 := Executive.init vm.state (vm.depth + 1)
  let bc := e0.callBegin p vm.gasPrice vm.origin hasCode
  let e1 := bc.1
  if bc.2 then
    .ok ⟨{ vm with state := e1.state }, e1, false, 0, false, 0,
         e1.gas, !e1.excepted, e1.newAddress⟩
  else
    let g := go allocOk vm.depth e1 p.onOp interp
    match g.outcome with
    | .error f => .error f
    | .ok e2 =>
        .ok ⟨{ vm with state := e2.state, sub := vm.sub.accrue e2.sub },
             e2, true, vm.depth, g.spawned, g.stackSize,
             e2.gas, !e2.excepted, e2.newAddress⟩

/-- `ExtVM::create` (ExtVM.cpp lines 122-135): increment the sender's
nonce via `noteSending`; construct an `Executive` at `depth + 1`; begin
the creation; if a run is needed, place it via `go` at the caller's depth
and then accrue the child's `SubState`; write the child's remaining gas
into `io_gas`; return `e.newAddress()`. -/
def ExtVM.create (vm : ExtVM) (endowment : Nat) (ioGas : Nat) (code : List Nat)
    (onOp : Nat) (allocOk : Bool) (interp : InterpOutcome) :
    Except Fault DispatchResult :=
  let s0 := vm.state.noteSending vm.myAddress
  let e0 := Executive.init s0 (vm.depth + 1)
  let bc := e0.createBegin vm.myAddress endowment vm.gasPrice ioGas code vm.origin
  let e1 := bc.1
  if bc.2 then
    .ok ⟨{ vm with state := e1.state }, e1, false, 0, false, 0,
         e1.gas, !e1.excepted, e1.newAddress⟩
  else
    let g := go allocOk vm.depth e1 onOp interp
    match g.outcome with
    | .error f => .error f
    | .ok e2 =>
        .ok ⟨{ vm with state := e2.state, sub := vm.sub.accrue e2.sub },
             e2, true, vm.depth, g.spawned, g.stackSize,
             e2.gas, !e2.excepted, e2.newAddress⟩

/-- The depths at which the governor is consulted along one nested call
chain: dispatching frames sit at consecutive depths starting at the
chain's entry depth. -/
def chainDepths (start len : Nat) : List Nat :=
  (List.range len).map (fun i => start + i)

/-- A concrete two-account ledger used to instantiate the theorems. -/
def sW : State := ⟨[(1, ⟨100, 5⟩), (2, ⟨50, 0⟩)]⟩

/-- A concrete caller at depth 0. -/
def vmW : ExtVM := ⟨sW, 0, 1, ⟨[7], [], 2⟩, 3, 9⟩

/-- Concrete call parameters: account 1 sends 10 wei to account 2. -/
def pW : CallParameters := ⟨1, 2, 2, 10, 1000, [], 0⟩

/-- A concrete interpreter outcome: normal halt with 42 gas left, one log
and a refund of 3. -/
def interpW : InterpOutcome := .done 42 ⟨[9], [], 3⟩ ⟨[(1, ⟨90, 5⟩), (2, ⟨60, 0⟩)]⟩

/-- The dispatch result of the concrete successful call. -/
def rW : DispatchResult :=
  ((ExtVM.call vmW pW true true interpW).toOption).getD default

/-- The dispatch result of a concrete creation from `vmW`. -/
def rCW : DispatchResult :=
  ((ExtVM.create vmW 10 500 [1, 2] 0 true interpW).toOption).getD default

/-- The dispatch result of a creation from `vmW` whose init code faults. -/
def rCFW : DispatchResult :=
  ((ExtVM.create vmW 10 500 [1, 2] 0 true (.vmFault 1)).toOption).getD default

/-- A concrete caller sitting exactly at the depth limit. -/
def vmDW : ExtVM := ⟨sW, c_depthLimit, 1, ⟨[7], [], 2⟩, 3, 9⟩

/-- The dispatch result of a call attempted at the depth limit. -/
def rDCallW : DispatchResult :=
  ((ExtVM.call vmDW pW true true interpW).toOption).getD default

/-- The dispatch result of a creation attempted at the depth limit. -/
def rDCreateW : DispatchResult :=
  ((ExtVM.create vmDW 10 500 [1, 2] 0 true interpW).toOption).getD default

/-- A concrete caller sitting exactly at the offload point. -/
def vmOW : ExtVM := ⟨sW, c_offloadPoint, 1, SubState.empty, 3, 9⟩

/-- The dispatch result of a call dispatched at the offload point with a
successful context allocation. -/
def rOW : DispatchResult :=
  ((ExtVM.call vmOW pW true true interpW).toOption).getD default

/-- A concrete fresh frame at depth 1. -/
def eW : Executive := Executive.init sW 1

theorem lookupAccounts_setAccounts_self (l : List (Address × Account)) (a : Address)
    (acc : Account) : lookupAccounts (setAccounts l a acc) a = acc := by
  induction l with
  | nil => simp [setAccounts, lookupAccounts]
  | cons hd tl ih =>
    obtain ⟨b, acc0⟩ := hd
    by_cases hb : b = a
    · simp [setAccounts, hb, lookupAccounts]
    · simp [setAccounts, hb, lookupAccounts, ih]

theorem lookupAccounts_setAccounts_ne (l : List (Address × Account)) (a b : Address)
    (acc : Account) (h : b ≠ a) :
    lookupAccounts (setAccounts l a acc) b = lookupAccounts l b := by
  have h' : a ≠ b := fun hab => h hab.symm
  induction l with
  | nil => simp [setAccounts, lookupAccounts, h']
  | cons hd tl ih =>
    obtain ⟨c, acc0⟩ := hd
    by_cases hc : c = a
    · subst hc
      simp [setAccounts, lookupAccounts, h']
    · simp [setAccounts, hc, lookupAccounts, ih]

theorem nonce_noteSending_self (s : State) (a : Address) :
    (s.noteSending a).nonce a = s.nonce a + 1 := by
  simp [State.noteSending, State.nonce, lookupAccounts_setAccounts_self]

theorem nonce_noteSending_ne (s : State) (a b : Address) (h : b ≠ a) :
    (s.noteSending a).nonce b = s.nonce b := by
  simp [State.noteSending, State.nonce, lookupAccounts_setAccounts_ne _ _ _ _ h]

theorem balance_noteSending (s : State) (a b : Address) :
    (s.noteSending a).balance b = s.balance b := by
  by_cases hb : b = a
  · subst hb
    simp [State.noteSending, State.balance, lookupAccounts_setAccounts_self]
  · simp [State.noteSending, State.balance, lookupAccounts_setAccounts_ne _ _ _ _ hb]

theorem SubState.accrue_empty (s : SubState) : s.accrue SubState.empty = s := by
  simp [SubState.accrue, SubState.empty]

theorem goOnOffloadedStack_eq (allocOk : Bool) (e : Executive) (onOp : Nat)
    (interp : InterpOutcome) :
    goOnOffloadedStack allocOk e onOp interp =
      ⟨(c_depthLimit - c_offloadPoint) * c_singleExecutionStackSize, allocOk,
       if allocOk then e.go onOp interp
       else .error ⟨FaultKind.nativeResource, 0⟩⟩ := by
  cases allocOk with
  | false => simp [goOnOffloadedStack]
  | true => cases h : e.go onOp interp <;> simp [goOnOffloadedStack, h]

theorem go_eq (allocOk : Bool) (depth : Nat) (e : Executive) (onOp : Nat)
    (interp : InterpOutcome) :
    go allocOk depth e onOp interp =
      if depth = c_offloadPoint then
        ⟨if allocOk then e.go onOp interp
          else .error ⟨FaultKind.nativeResource, 0⟩, allocOk,
         (c_depthLimit - c_offloadPoint) * c_singleExecutionStackSize⟩
      else ⟨e.go onOp interp, false, 0⟩ := by
  by_cases hd : depth = c_offloadPoint <;> simp [go, hd, goOnOffloadedStack_eq]

theorem go_outcome_ok (allocOk : Bool) (depth : Nat) (e : Executive) (onOp : Nat)
    (interp : InterpOutcome) (e2 : Executive)
    (h : (go allocOk depth e onOp interp).outcome = .ok e2) :
    e.go onOp interp = .ok e2 := by
  rw [go_eq] at h
  by_cases hd : depth = c_offloadPoint
  · cases allocOk
    · simp [hd] at h
    · simpa [hd] using h
  · simpa [hd] using h

theorem Executive.go_error_kind (e : Executive) (onOp : Nat) (interp : InterpOutcome)
    (f : Fault) (h : e.go onOp interp = .error f) :
    f.kind = FaultKind.nativeResource := by
  cases interp with
  | done g s post => simp [Executive.go] at h
  | vmFault p => simp [Executive.go] at h
  | nativeFault p =>
    simp [Executive.go] at h
    subst h
    rfl

theorem go_outcome_error (allocOk : Bool) (depth : Nat) (e : Executive) (onOp : Nat)
    (interp : InterpOutcome) (f : Fault)
    (h : (go allocOk depth e onOp interp).outcome = .error f) :
    f.kind = FaultKind.nativeResource := by
  rw [go_eq] at h
  by_cases hd : depth = c_offloadPoint
  · cases allocOk
    · simp [hd] at h
      subst h
      rfl
    · simp [hd] at h
      exact Executive.go_error_kind e onOp interp f h
  · simp [hd] at h
    exact Executive.go_error_kind e onOp interp f h

theorem go_spawned_eq (allocOk : Bool) (depth : Nat) (e : Executive) (onOp : Nat)
    (interp : InterpOutcome) (h : (go allocOk depth e onOp interp).spawned = true) :
    depth = c_offloadPoint := by
  rw [go_eq] at h
  by_cases hd : depth = c_offloadPoint
  · exact hd
  · simp [hd] at h

theorem Executive.callBegin_inv (e : Executive) (p : CallParameters) (gp og : Nat)
    (hasCode : Bool) :
    (e.callBegin p gp og hasCode).1.depth = e.depth ∧
      (e.callBegin p gp og hasCode).1.sub = e.sub ∧
      (e.callBegin p gp og hasCode).1.origState = e.origState := by
  by_cases hd : c_depthLimit < e.depth <;> simp [Executive.callBegin, hd]

theorem Executive.createBegin_inv (e : Executive) (sender endowment gp g og : Nat)
    (code : List Nat) :
    (e.createBegin sender endowment gp g code og).1.depth = e.depth ∧
      (e.createBegin sender endowment gp g code og).1.sub = e.sub ∧
      (e.createBegin sender endowment gp g code og).1.origState = e.origState := by
  by_cases hd : c_depthLimit < e.depth <;> simp [Executive.createBegin, hd]

theorem Executive.callBegin_excepted_state (e : Executive) (p : CallParameters)
    (gp og : Nat) (hasCode : Bool) (he : e.excepted = false)
    (h : (e.callBegin p gp og hasCode).1.excepted = true) :
    (e.callBegin p gp og hasCode).1.state = e.state := by
  by_cases hd : c_depthLimit < e.depth <;> simp [Executive.callBegin, hd] at h ⊢
  rw [he] at h
  cases h

theorem Executive.createBegin_excepted_state (e : Executive) (sender endowment gp g og : Nat)
    (code : List Nat) (he : e.excepted = false)
    (h : (e.createBegin sender endowment gp g code og).1.excepted = true) :
    (e.createBegin sender endowment gp g code og).1.state = e.state := by
  by_cases hd : c_depthLimit < e.depth <;> simp [Executive.createBegin, hd] at h ⊢
  rw [he] at h
  cases h

theorem Executive.callBegin_depth_exceeded (e : Executive) (p : CallParameters)
    (gp og : Nat) (hasCode : Bool) (hd : c_depthLimit < e.depth) :
    e.callBegin p gp og hasCode = ({ e with excepted := true, gas := 0 }, true) := by
  simp [Executive.callBegin, hd]

theorem Executive.createBegin_depth_exceeded (e : Executive) (sender endowment gp g og : Nat)
    (code : List Nat) (hd : c_depthLimit < e.depth) :
    e.createBegin sender endowment gp g code og
      = ({ e with excepted := true, gas := 0 }, true) := by
  simp [Executive.createBegin, hd]

theorem Executive.go_ok_inv (e e2 : Executive) (onOp : Nat) (interp : InterpOutcome)
    (h : e.go onOp interp = .ok e2) :
    e2.depth = e.depth ∧ e2.origState = e.origState ∧
      (e2.excepted = true →
        e2.sub = SubState.empty ∧ e2.state = e.origState ∧ e2.gas = 0) := by
  cases interp <;> simp [Executive.go] at h <;> subst h <;> simp

/-- C1: for every sub-call and sub-creation dispatched by `ExtVM::call` /
`ExtVM::create`, the child frame's `SubState` is merged into the caller's
`SubState` exactly once (one `accrue` of the child's final substate) when
the child frame completed without exception; when the child frame ends
exceptionally, the caller's `SubState` is unchanged. -/
theorem substate_merged_iff_child_success (vm : ExtVM) (p : CallParameters)
    (hasCode allocOk : Bool) (interp : InterpOutcome)
    (endowment ioGas : Nat) (code : List Nat) (onOp : Nat) (r : DispatchResult) :
    (ExtVM.call vm p hasCode allocOk interp = .ok r →
      (r.childFinal.excepted = true → r.vm.sub = vm.sub) ∧
      (r.childFinal.excepted = false →
        r.vm.sub = vm.sub.accrue r.childFinal.sub)) ∧
    (ExtVM.create vm endowment ioGas code onOp allocOk interp = .ok r →
      (r.childFinal.excepted = true → r.vm.sub = vm.sub) ∧
      (r.childFinal.excepted = false →
        r.vm.sub = vm.sub.accrue r.childFinal.sub)) := by
  constructor
  · intro h
    simp only [ExtVM.call] at h
    split at h
    · cases h
      have hsub : (Executive.callBegin (Executive.init vm.state (vm.depth + 1)) p
          vm.gasPrice vm.origin hasCode).1.sub = SubState.empty :=
        (Executive.callBegin_inv _ p vm.gasPrice vm.origin hasCode).2.1
      refine ⟨fun _ => rfl, fun _ => ?_⟩
      dsimp only
      rw [hsub, SubState.accrue_empty]
    · split at h
      · cases h
      · rename_i e2 heq
        cases h
        have hgo := go_outcome_ok _ _ _ _ _ _ heq
        have hinv := Executive.go_ok_inv _ _ _ _ hgo
        refine ⟨fun hex => ?_, fun _ => rfl⟩
        dsimp only at hex ⊢
        rw [(hinv.2.2 hex).1, SubState.accrue_empty]
  · intro h
    simp only [ExtVM.create] at h
    split at h
    · cases h
      have hsub : (Executive.createBegin
          (Executive.init (vm.state.noteSending vm.myAddress) (vm.depth + 1))
          vm.myAddress endowment vm.gasPrice ioGas code vm.origin).1.sub
            = SubState.empty :=
        (Executive.createBegin_inv _ _ _ _ _ _ _).2.1
      refine ⟨fun _ => rfl, fun _ => ?_⟩
      dsimp only
      rw [hsub, SubState.accrue_empty]
    · split at h
      · cases h
      · rename_i e2 heq
        cases h
        have hgo := go_outcome_ok _ _ _ _ _ _ heq
        have hinv := Executive.go_ok_inv _ _ _ _ hgo
        refine ⟨fun hex => ?_, fun _ => rfl⟩
        dsimp only at hex ⊢
        rw [(hinv.2.2 hex).1, SubState.accrue_empty]

/-- A closed instance of the C1 theorem: the concrete successful call
`rW` merges the child's logs and refunds into the caller exactly once,
and a concrete faulting creation leaves the caller's `SubState`
unchanged. -/
theorem substate_merged_iff_child_success_witness :
    ExtVM.call vmW pW true true interpW = .ok rW ∧
      rW.childFinal.excepted = false ∧
      rW.vm.sub = SubState.accrue vmW.sub rW.childFinal.sub ∧
      rW.vm.sub = ⟨[7, 9], [], 5⟩ ∧
      rCFW.childFinal.excepted = true ∧ rCFW.vm.sub = vmW.sub := by
  refine ⟨rfl, rfl, ?_, rfl, rfl, ?_⟩
  · exact ((substate_merged_iff_child_success vmW pW true true interpW
      10 500 [1, 2] 0 rW).1 rfl).2 rfl
  · exact ((substate_merged_iff_child_success vmW pW true true (.vmFault 1)
      10 500 [1, 2] 0 rCFW).2 rfl).1 rfl

/-- C2: every invocation of `ExtVM::create` increments the sender's
nonce on the ledger exactly once, before the creation frame is
constructed (the frame's savepoint already contains the increment),
unconditionally; and on every path this layer controls — the frame never
ran, or its run faulted and was reverted to the savepoint — the final
ledger still shows the increment, so the dispatcher never rolls it
back. -/
theorem create_nonce_incremented_before_frame (vm : ExtVM) (endowment ioGas : Nat)
    (code : List Nat) (onOp : Nat) (allocOk : Bool) (interp : InterpOutcome)
    (r : DispatchResult)
    (h : ExtVM.create vm endowment ioGas code onOp allocOk interp = .ok r) :
    r.childFinal.origState = vm.state.noteSending vm.myAddress ∧
      (vm.state.noteSending vm.myAddress).nonce vm.myAddress
        = vm.state.nonce vm.myAddress + 1 ∧
      (r.childFinal.excepted = true →
        r.vm.state.nonce vm.myAddress = vm.state.nonce vm.myAddress + 1) := by
  have hns := nonce_noteSending_self vm.state vm.myAddress
  simp only [ExtVM.create] at h
  split at h
  · cases h
    refine ⟨(Executive.createBegin_inv _ _ _ _ _ _ _).2.2, hns, fun hex => ?_⟩
    dsimp only at hex ⊢
    rw [Executive.createBegin_excepted_state _ _ _ _ _ _ _ rfl hex]
    exact hns
  · split at h
    · cases h
    · rename_i e2 heq
      cases h
      have hgo := go_outcome_ok _ _ _ _ _ _ heq
      have hinv := Executive.go_ok_inv _ _ _ _ hgo
      refine ⟨?_, hns, fun hex => ?_⟩
      · dsimp only
        rw [hinv.2.1]
        exact (Executive.createBegin_inv _ _ _ _ _ _ _).2.2
      · dsimp only at hex ⊢
        rw [(hinv.2.2 hex).2.1, (Executive.createBegin_inv _ _ _ _ _ _ _).2.2]
        exact hns

/-- A closed instance of the C2 theorem: a concrete creation whose init
code faults still leaves the sender's nonce incremented from 5 to 6. -/
theorem create_nonce_incremented_before_frame_witness :
    ExtVM.create vmW 10 500 [1, 2] 0 true (.vmFault 1) = .ok rCFW ∧
      rCFW.childFinal.origState = vmW.state.noteSending vmW.myAddress ∧
      rCFW.childFinal.excepted = true ∧
      rCFW.vm.state.nonce vmW.myAddress = vmW.state.nonce vmW.myAddress + 1 ∧
      rCFW.vm.state.nonce 1 = 6 := by
  have h := create_nonce_incremented_before_frame vmW 10 500 [1, 2] 0 true
    (.vmFault 1) rCFW rfl
  exact ⟨rfl, h.1, rfl, h.2.2 rfl, rfl⟩

/-- C10: the child `Executive` is constructed at exactly the caller's
depth plus one, the governor `go` receives the caller's own depth, and
when relocation is triggered the caller sits exactly at the offload
point, so the first frame to run on the relocated stack is the child at
depth `offloadPoint + 1`. -/
theorem child_frame_depth_dispatch (vm : ExtVM) (p : CallParameters)
    (hasCode allocOk : Bool) (interp : InterpOutcome) (endowment ioGas : Nat)
    (code : List Nat) (onOp : Nat) (r : DispatchResult) :
    (ExtVM.call vm p hasCode allocOk interp = .ok r →
      r.childFinal.depth = vm.depth + 1 ∧
      (r.ran = true → r.goDepth = vm.depth) ∧
      (r.spawned = true →
        vm.depth = c_offloadPoint ∧ r.childFinal.depth = c_offloadPoint + 1)) ∧
    (ExtVM.create vm endowment ioGas code onOp allocOk interp = .ok r →
      r.childFinal.depth = vm.depth + 1 ∧
      (r.ran = true → r.goDepth = vm.depth) ∧
      (r.spawned = true →
        vm.depth = c_offloadPoint ∧ r.childFinal.depth = c_offloadPoint + 1)) := by
  constructor
  · intro h
    simp only [ExtVM.call] at h
    split at h
    · cases h
      refine ⟨(Executive.callBegin_inv _ _ _ _ _).1, fun hran => ?_, fun hsp => ?_⟩
      · cases hran
      · cases hsp
    · split at h
      · cases h
      · rename_i e2 heq
        cases h
        have hgo := go_outcome_ok _ _ _ _ _ _ heq
        have hinv := Executive.go_ok_inv _ _ _ _ hgo
        have hdepth : e2.depth = vm.depth + 1 := by
          rw [hinv.1]
          exact (Executive.callBegin_inv _ _ _ _ _).1
        refine ⟨hdepth, fun _ => rfl, fun hsp => ?_⟩
        have hoff := go_spawned_eq _ _ _ _ _ hsp
        exact ⟨hoff, by rw [hdepth, hoff]⟩
  · intro h
    simp only [ExtVM.create] at h
    split at h
    · cases h
      refine ⟨(Executive.createBegin_inv _ _ _ _ _ _ _).1, fun hran => ?_, fun hsp => ?_⟩
      · cases hran
      · cases hsp
    · split at h
      · cases h
      · rename_i e2 heq
        cases h
        have hgo := go_outcome_ok _ _ _ _ _ _ heq
        have hinv := Executive.go_ok_inv _ _ _ _ hgo
        have hdepth : e2.depth = vm.depth + 1 := by
          rw [hinv.1]
          exact (Executive.createBegin_inv _ _ _ _ _ _ _).1
        refine ⟨hdepth, fun _ => rfl, fun hsp => ?_⟩
        have hoff := go_spawned_eq _ _ _ _ _ hsp
        exact ⟨hoff, by rw [hdepth, hoff]⟩

/-- A closed instance of the C10 theorem: a concrete call dispatched by a
caller at depth 806 (the offload point) spawns a context and runs its
child at depth 807. -/
theorem child_frame_depth_dispatch_witness :
    ExtVM.call vmOW pW true true interpW = .ok rOW ∧
      rOW.childFinal.depth = vmOW.depth + 1 ∧
      rOW.goDepth = vmOW.depth ∧
      rOW.spawned = true ∧
      vmOW.depth = c_offloadPoint ∧
      rOW.childFinal.depth = c_offloadPoint + 1 := by
  have h := (child_frame_depth_dispatch vmOW pW true true interpW
    10 500 [1, 2] 0 rOW).1 rfl
  exact ⟨rfl, h.1, h.2.1 rfl, rfl, (h.2.2 rfl).1, (h.2.2 rfl).2⟩

/-- C4: after `ExtVM::call` returns, `params.gas` equals the child
frame's final remaining-gas value, and after `ExtVM::create` returns,
`io_gas` equals the child frame's final remaining-gas value, on the
success path and on the failure path alike. -/
theorem gas_writeback_eq_child_final_gas (vm : ExtVM) (p : CallParameters)
    (hasCode allocOk : Bool) (interp : InterpOutcome)
    (endowment ioGas : Nat) (code : List Nat) (onOp : Nat) (r : DispatchResult) :
    (ExtVM.call vm p hasCode allocOk interp = .ok r → r.gasOut = r.childFinal.gas) ∧
    (ExtVM.create vm endowment ioGas code onOp allocOk interp = .ok r →
      r.gasOut = r.childFinal.gas) := by
  constructor
  · intro h
    simp only [ExtVM.call] at h
    split at h
    · cases h
      rfl
    · split at h
      · cases h
      · cases h
        rfl
  · intro h
    simp only [ExtVM.create] at h
    split at h
    · cases h
      rfl
    · split at h
      · cases h
      · cases h
        rfl

/-- A closed instance of the C4 theorem: the concrete call `rW` reports
back exactly the child frame's final gas. -/
theorem gas_writeback_eq_child_final_gas_witness :
    ExtVM.call vmW pW true true interpW = .ok rW ∧
      rW.gasOut = rW.childFinal.gas ∧ rW.gasOut = 42 := by
  refine ⟨rfl, ?_, rfl⟩
  exact (gas_writeback_eq_child_final_gas vmW pW true true interpW 10 500 [1, 2] 0 rW).1 rfl

/-- C6: running a frame through the governor at the offload point is
observationally equivalent to running it unrelocated: the outcome seen
by the original context after the join (a captured fault re-raised, or
the completed frame) equals the outcome of a direct, unrelocated run —
same kind and payload on every fault. -/
theorem offloaded_run_observationally_equivalent (e : Executive) (onOp : Nat)
    (interp : InterpOutcome) :
    (goOnOffloadedStack true e onOp interp).outcome = e.go onOp interp := by
  simp [goOnOffloadedStack_eq]

/-- C8: every build/platform configuration of the source satisfies the
stack-budget invariant
`offloadPoint * perCallStackSize + entryOverhead ≤ defaultStackSize`. -/
theorem offload_point_stack_budget (c : StackConfig) (h : c ∈ sourceConfigs) :
    c.offloadPoint * c.singleExecutionStackSize + c.entryOverhead
      ≤ c.defaultStackSize := by
  fin_cases h <;> decide

/-- A closed instance of the C8 theorem: the Linux release configuration
(the one `c_offloadPoint` is built from) satisfies the invariant, with
offload point 806. -/
theorem offload_point_stack_budget_witness :
    (⟨10 * 1024, 8 * 1024 * 1024, 128 * 1024⟩ : StackConfig) ∈ sourceConfigs ∧
      (⟨10 * 1024, 8 * 1024 * 1024, 128 * 1024⟩ : StackConfig).offloadPoint = 806 ∧
      (⟨10 * 1024, 8 * 1024 * 1024, 128 * 1024⟩ : StackConfig).offloadPoint * (10 * 1024)
        + 128 * 1024 ≤ 8 * 1024 * 1024 ∧
      c_offloadPoint = 806 := by
  refine ⟨by decide, by decide, ?_, by decide⟩
  exact offload_point_stack_budget ⟨10 * 1024, 8 * 1024 * 1024, 128 * 1024⟩ (by decide)

/-- C9: when relocation is triggered, the stack segment requested for the
new execution context has size exactly
`(depthLimit - offloadPoint) * perCallStackSize`, covering one
per-call-stack slice for every remaining permissible depth. -/
theorem offloaded_stack_segment_size (allocOk : Bool) (e : Executive) (onOp : Nat)
    (interp : InterpOutcome) :
    (goOnOffloadedStack allocOk e onOp interp).stackSize
        = (c_depthLimit - c_offloadPoint) * c_singleExecutionStackSize ∧
      (∀ k, k ≤ c_depthLimit - c_offloadPoint →
        k * c_singleExecutionStackSize
          ≤ (goOnOffloadedStack allocOk e onOp interp).stackSize) := by
  rw [goOnOffloadedStack_eq]
  exact ⟨rfl, fun k hk => Nat.mul_le_mul_right _ hk⟩

/-- A closed instance of the C9 theorem: the concrete segment size is
`(1024 - 806) * 10240 = 2232320` bytes, enough for all 218 remaining
depths. -/
theorem offloaded_stack_segment_size_witness :
    (goOnOffloadedStack true eW 0 interpW).stackSize
        = (c_depthLimit - c_offloadPoint) * c_singleExecutionStackSize ∧
      (c_depthLimit - c_offloadPoint) * c_singleExecutionStackSize
        ≤ (goOnOffloadedStack true eW 0 interpW).stackSize ∧
      (goOnOffloadedStack true eW 0 interpW).stackSize = 2232320 := by
  refine ⟨(offloaded_stack_segment_size true eW 0 interpW).1, ?_, by decide⟩
  exact (offloaded_stack_segment_size true eW 0 interpW).2
    (c_depthLimit - c_offloadPoint) (Nat.le_refl _)

/-- C3 counterexample: a creation attempted at depth exactly
`c_depthLimit` halts exceptionally but does NOT leave every nonce
unchanged — the sender's nonce moves from 5 to 6, because
`ExtVM::create` increments it unconditionally before the depth check can
fail the frame. -/
theorem create_at_depth_limit_changes_nonce_cex :
    vmDW.depth = c_depthLimit ∧
      ExtVM.create vmDW 10 500 [1, 2] 0 true interpW = .ok rDCreateW ∧
      rDCreateW.childFinal.excepted = true ∧
      vmDW.state.nonce 1 = 5 ∧
      rDCreateW.vm.state.nonce 1 = 6 := by
  refine ⟨by decide, rfl, by decide, by decide, by decide⟩

/-- C3 as amended: a call attempted at depth equal to `depthLimit` halts
exceptionally and leaves every ledger balance and every nonce unchanged;
a creation attempted at depth equal to `depthLimit` also halts
exceptionally and leaves every balance and every other account's nonce
unchanged, except that the sender's nonce is still incremented exactly
once by the unconditional pre-creation increment.  Effects committed by
enclosing frames at shallower depths (the incoming ledger) are otherwise
untouched. -/
theorem depth_limit_halt_side_effects (vm : ExtVM) (p : CallParameters)
    (hasCode allocOk : Bool) (interp : InterpOutcome) (endowment ioGas : Nat)
    (code : List Nat) (onOp : Nat) (hdl : vm.depth = c_depthLimit) :
    (∀ r, ExtVM.call vm p hasCode allocOk interp = .ok r →
      r.childFinal.excepted = true ∧ r.success = false ∧ r.vm.state = vm.state) ∧
    (∀ r, ExtVM.create vm endowment ioGas code onOp allocOk interp = .ok r →
      r.childFinal.excepted = true ∧
        r.vm.state = vm.state.noteSending vm.myAddress ∧
        r.vm.state.nonce vm.myAddress = vm.state.nonce vm.myAddress + 1 ∧
        (∀ b, r.vm.state.balance b = vm.state.balance b) ∧
        (∀ b, b ≠ vm.myAddress → r.vm.state.nonce b = vm.state.nonce b)) := by
  have hdep : c_depthLimit < vm.depth + 1 := by
    rw [hdl]
    exact Nat.lt_succ_self _
  constructor
  · intro r h
    simp only [ExtVM.call] at h
    have hE := Executive.callBegin_depth_exceeded
      (Executive.init vm.state (vm.depth + 1)) p vm.gasPrice vm.origin hasCode hdep
    rw [hE] at h
    split at h
    · cases h
      exact ⟨rfl, rfl, rfl⟩
    · rename_i hcond
      exact absurd rfl hcond
  · intro r h
    simp only [ExtVM.create] at h
    have hE := Executive.createBegin_depth_exceeded
      (Executive.init (vm.state.noteSending vm.myAddress) (vm.depth + 1))
      vm.myAddress endowment vm.gasPrice ioGas vm.origin code hdep
    rw [hE] at h
    split at h
    · cases h
      refine ⟨rfl, rfl, nonce_noteSending_self _ _,
        fun b => balance_noteSending _ _ b,
        fun b hb => nonce_noteSending_ne _ _ b hb⟩
    · rename_i hcond
      exact absurd rfl hcond

/-- A closed instance of the amended C3 theorem: at the concrete caller
`vmDW` (depth 1024), the call leaves the ledger untouched and the
creation touches nothing but the sender's nonce. -/
theorem depth_limit_halt_side_effects_witness :
    ExtVM.call vmDW pW true true interpW = .ok rDCallW ∧
      rDCallW.childFinal.excepted = true ∧
      rDCallW.success = false ∧
      rDCallW.vm.state = vmDW.state ∧
      rDCreateW.vm.state.balance 1 = vmDW.state.balance 1 ∧
      rDCreateW.vm.state.nonce 2 = vmDW.state.nonce 2 ∧
      rDCreateW.vm.state.nonce 1 = vmDW.state.nonce 1 + 1 := by
  have h := depth_limit_halt_side_effects vmDW pW true true interpW
    10 500 [1, 2] 0 rfl
  have hc := h.1 rDCallW rfl
  have hcr := h.2 rDCreateW rfl
  exact ⟨rfl, hc.1, hc.2.1, hc.2.2, hcr.2.2.2.1 1, hcr.2.2.2.2 2 (by decide),
    hcr.2.2.1⟩

/-- C7: `ExtVM::call` never lets an interpreter-level fault of the
sub-execution escape as a control-flow exception — any fault the
dispatcher does propagate is a native resource fault from
stack-segment/context allocation — and an interpreter fault is absorbed
into the frame's exceptional terminal state and reported through the
boolean result. -/
theorem call_fault_propagation_policy :
    (∀ (vm : ExtVM) (p : CallParameters) (hasCode allocOk : Bool)
        (interp : InterpOutcome) (f : Fault),
      ExtVM.call vm p hasCode allocOk interp = .error f →
        f.kind = FaultKind.nativeResource) ∧
    (∀ (vm : ExtVM) (p : CallParameters) (payload : Nat),
      (ExtVM.call vm p true true (.vmFault payload)).isOk = true ∧
      ((ExtVM.call vm p true true (.vmFault payload)).toOption.getD default).success
        = false) := by
  constructor
  · intro vm p hasCode allocOk interp f h
    simp only [ExtVM.call] at h
    split at h
    · cases h
    · split at h
      · rename_i f' heq
        cases h
        exact go_outcome_error _ _ _ _ _ _ heq
      · cases h
  · intro vm p payload
    by_cases hdep : c_depthLimit < vm.depth + 1
    · simp [ExtVM.call, Executive.callBegin, Executive.init, hdep,
        Except.isOk, Except.toBool, Except.toOption]
    · by_cases hoff : vm.depth = c_offloadPoint
      · rw [hoff] at hdep
        simp [ExtVM.call, Executive.callBegin, Executive.init, hdep, go_eq, hoff,
          Executive.go, Except.isOk, Except.toBool, Except.toOption]
      · simp [ExtVM.call, Executive.callBegin, Executive.init, hdep, go_eq, hoff,
          Executive.go, Except.isOk, Except.toBool, Except.toOption]

/-- A closed instance of the C7 theorem: at the offload point with a
failed context allocation the concrete call propagates exactly a native
resource fault, and a concrete interpreter fault is absorbed into a
`false` result. -/
theorem call_fault_propagation_policy_witness :
    ExtVM.call vmOW pW true false interpW
        = .error ⟨FaultKind.nativeResource, 0⟩ ∧
      (⟨FaultKind.nativeResource, 0⟩ : Fault).kind = FaultKind.nativeResource ∧
      (ExtVM.call vmW pW true true (.vmFault 3)).isOk = true ∧
      ((ExtVM.call vmW pW true true (.vmFault 3)).toOption.getD default).success
        = false := by
  have h2 := call_fault_propagation_policy.2 vmW pW 3
  refine ⟨rfl, ?_, h2.1, h2.2⟩
  exact call_fault_propagation_policy.1 vmOW pW true false interpW
    ⟨FaultKind.nativeResource, 0⟩ rfl

/-- C5: for every depth below the offload point the governor runs the
frame directly in the current context and spawns nothing; a new context
is spawned exactly when the depth equals the offload point; and along one
call chain (consecutive dispatch depths) the offload point is hit at most
once, so relocation happens at most once per chain. -/
theorem governor_placement_and_single_relocation :
    (∀ (allocOk : Bool) (d : Nat) (e : Executive) (onOp : Nat)
        (interp : InterpOutcome), d < c_offloadPoint →
      (go allocOk d e onOp interp).spawned = false ∧
        (go allocOk d e onOp interp).outcome = e.go onOp interp ∧
        (go allocOk d e onOp interp).stackSize = 0) ∧
    (∀ (d : Nat) (e : Executive) (onOp : Nat) (interp : InterpOutcome),
      (go true d e onOp interp).spawned = true ↔ d = c_offloadPoint) ∧
    (∀ start len, (chainDepths start len).count c_offloadPoint ≤ 1) := by
  refine ⟨?_, ?_, ?_⟩
  · intro allocOk d e onOp interp hd
    have hne : d ≠ c_offloadPoint := Nat.ne_of_lt hd
    rw [go_eq, if_neg hne]
    exact ⟨rfl, rfl, rfl⟩
  · intro d e onOp interp
    rw [go_eq]
    by_cases hd : d = c_offloadPoint <;> simp [hd]
  · intro start len
    have hnd : (chainDepths start len).Nodup := by
      refine List.Nodup.map ?_ (List.nodup_range len)
      intro i j hij
      exact Nat.add_left_cancel hij
    exact List.nodup_iff_count_le_one.mp hnd c_offloadPoint

/-- A closed instance of the C5 theorem: at depth 0 the concrete frame
runs directly with nothing spawned, at depth 806 a context is spawned,
and a chain entered at depth 0 of maximal length hits the offload point
exactly once. -/
theorem governor_placement_and_single_relocation_witness :
    0 < c_offloadPoint ∧
      (go true 0 eW 0 interpW).spawned = false ∧
      (go true 0 eW 0 interpW).outcome = eW.go 0 interpW ∧
      (go true 806 eW 0 interpW).spawned = true ∧
      (chainDepths 0 1024).count c_offloadPoint ≤ 1 := by
  have h := governor_placement_and_single_relocation
  refine ⟨by decide, (h.1 true 0 eW 0 interpW (by decide)).1,
    (h.1 true 0 eW 0 interpW (by decide)).2.1, ?_, h.2.2 0 1024⟩
  exact (h.2.1 806 eW 0 interpW).mpr (by decide)

end ExtVMSpec
